import Mathlib

set_option maxRecDepth 200000

/-!
Verification of the workflow-orchestration core described by the repository's
two Airflow DAG definition files (`dbt_dag.py` and `uber_analytics_dag.py`).

The scheduling engine itself (trigger rules, branch pruning, retry/backoff,
terminal callbacks, run admission) is not part of the repository's sources:
the DAG files only declare graphs, trigger rules and policies that the host
engine interprets.  The engine is therefore modelled here from the
specification (each such definition is marked `Modelled from the spec:`),
while the two dependency graphs, the DAG-level configuration dictionaries,
the quality-gate callables and the shell commands are embedded directly from
the source files.
-/

namespace AirflowDbt

/-- Modelled from the spec: per-node status in the Run Record
(`pending, queued, running, success, failed, skipped, upstream_failed`;
the sequential model settles each node in one step, so the transient
`queued`/`running` states collapse into `pending`). -/
inductive Status where
  | pending
  | success
  | failed
  | skipped
  | upstreamFailed
deriving DecidableEq, Repr

/-- Modelled from the spec: the enumerated trigger rules of §4.5. -/
inductive TriggerRule where
  | allSuccess
  | allDone
  | noneFailed
  | noneFailedMinOneSuccess
  | oneSuccess
deriving DecidableEq, Repr

/-- Modelled from the spec: the outcome of a node's Action — Success,
Failure(reason), or (Branch Evaluators only) a selected successor set. -/
inductive Outcome where
  | ok
  | fail (reason : String)
  | branch (sel : List String)
deriving DecidableEq, Repr

/-- Modelled from the spec: a Task Node — identity, upstream identity set,
trigger rule, and the outcome its Action produces when executed. -/
structure Node where
  id : String
  upstream : List String
  rule : TriggerRule
  out : Outcome
deriving DecidableEq, Repr

/-- A status is terminal (success/failed/skipped/upstream_failed). -/
def Status.isTerminal : Status → Bool
  | .pending => false
  | _ => true

/-- A status that blocks `none_failed`-style rules. -/
def isTermBad (s : Status) : Bool :=
  s == .failed || s == .upstreamFailed

/-- Modelled from the spec: the status a node settles to when its Action runs. -/
def runOutcome : Outcome → Status
  | .ok => .success
  | .fail _ => .failed
  | .branch _ => .success

/-- Modelled from the spec: trigger-rule evaluation over the (terminal)
upstream statuses, §4.5.  A node with no upstream is immediately ready;
a node whose rule can no longer be satisfied because of a failure becomes
`upstream_failed` without executing; a rule unsatisfiable only because of
skips propagates `skipped`. -/
def readyStatus (n : Node) (us : List Status) : Status :=
  if us.isEmpty then runOutcome n.out
  else
    match n.rule with
    | .allSuccess =>
        if us.all (· == .success) then runOutcome n.out
        else if us.any isTermBad then .upstreamFailed
        else .skipped
    | .allDone => runOutcome n.out
    | .noneFailed =>
        if us.any isTermBad then .upstreamFailed else runOutcome n.out
    | .noneFailedMinOneSuccess =>
        if us.any isTermBad then .upstreamFailed
        else if us.any (· == .success) then runOutcome n.out
        else .skipped
    | .oneSuccess =>
        if us.any (· == .success) then runOutcome n.out
        else if us.any isTermBad then .upstreamFailed
        else .skipped

/-- Modelled from the spec: §4.6 — when a Branch Evaluator settles with a
selection, every direct downstream node not in the returned set is
transitioned to `skipped`. -/
def isBranchSkipped (g : List Node) (env : String → Status) (n : Node) : Bool :=
  n.upstream.any fun uid =>
    match g.find? (fun m => m.id == uid) with
    | some m =>
        match m.out with
        | .branch sel => env uid == .success && !(sel.contains n.id)
        | _ => false
    | none => false

/-- Modelled from the spec: settling one node whose upstream statuses are all
terminal — branch pruning first, then trigger-rule evaluation. -/
def settleNode (g : List Node) (env : String → Status) (n : Node) : Status :=
  if isBranchSkipped g env n then .skipped
  else readyStatus n (n.upstream.map env)

/-- Update the Run Record with a node's settled status. -/
def updEnv (env : String → Status) (id : String) (v : Status) : String → Status :=
  fun s => if s = id then v else env s

/-- Modelled from the spec: the Scheduler's main loop, sequentialised — the
nodes are settled in topological order, one scheduler step per node. -/
def runFrom (g : List Node) (env : String → Status) : List Node → (String → Status)
  | [] => env
  | n :: rest => runFrom g (updEnv env n.id (settleNode g env n)) rest

/-- The initial Run Record: every node `pending`. -/
def initEnv : String → Status := fun _ => .pending

/-- Modelled from the spec: one full run of a (topologically ordered)
dependency graph, producing the final Run Record. -/
def runGraph (g : List Node) : String → Status :=
  runFrom g initEnv g

/-! ### Graph construction and validation -/

/-- Modelled from the spec: §4.4 construction errors — duplicate identities,
dangling upstream references, cycles. -/
inductive BuildError where
  | duplicateId
  | dangling
  | cyclic
deriving DecidableEq, Repr

/-- Does some node reference an upstream identity that is not a node of the
graph? -/
def danglingB (g : List Node) : Bool :=
  g.any fun n => n.upstream.any fun u => !((g.map Node.id).contains u)

/-- Pick the first node of the list all of whose upstream identities have
already been placed, returning it together with the remaining nodes. -/
def pickReady (placed : List String) : List Node → Option (Node × List Node)
  | [] => none
  | n :: rest =>
      if n.upstream.all (fun u => placed.contains u) then some (n, rest)
      else
        match pickReady placed rest with
        | some (m, rest2) => some (m, n :: rest2)
        | none => none

/-- Kahn-style topological sort with explicit fuel (one unit per node). -/
def topoGo (fuel : Nat) (placed : List String) (remaining : List Node) :
    Option (List Node) :=
  match fuel, remaining with
  | _, [] => some []
  | 0, _ :: _ => none
  | fuel + 1, rem =>
      match pickReady placed rem with
      | none => none
      | some (n, rest) => (topoGo fuel (n.id :: placed) rest).map (n :: ·)

/-- Modelled from the spec: construction-time validation — cycle detection via
topological sort. -/
def topoSort (g : List Node) : Option (List Node) :=
  topoGo g.length [] g

/-- Modelled from the spec: building a Dependency Graph validates unique
identities, no dangling upstream reference, and acyclicity, synchronously,
before any run; the result is a topologically ordered node list. -/
def buildGraph (g : List Node) : Except BuildError (List Node) :=
  if !(g.map Node.id).Nodup then .error .duplicateId
  else if danglingB g then .error .dangling
  else
    match topoSort g with
    | none => .error .cyclic
    | some order => .ok order

/-- `u → v` is an edge of the graph: some node named `v` lists `u` upstream. -/
def Edge (g : List Node) (u v : String) : Prop :=
  ∃ n ∈ g, n.id = v ∧ u ∈ n.upstream

/-- `v` is reachable from `u` along one or more edges. -/
def Reaches (g : List Node) : String → String → Prop :=
  Relation.TransGen (Edge g)

/-- The graph contains a cycle: some identity reaches itself. -/
def HasCycle (g : List Node) : Prop :=
  ∃ a, Reaches g a a

/-- The graph contains a dangling reference. -/
def Dangling (g : List Node) : Prop :=
  ∃ n ∈ g, ∃ u ∈ n.upstream, u ∉ g.map Node.id

/-- Each node's upstream identities all occur among the already-placed
identities, walking the list front to back. -/
def TopoOK : List String → List Node → Prop
  | _, [] => True
  | placed, n :: rest =>
      (∀ u ∈ n.upstream, u ∈ placed) ∧ TopoOK (n.id :: placed) rest

/-- Boolean version of `TopoOK`. -/
def topoOKb : List String → List Node → Bool
  | _, [] => true
  | placed, n :: rest =>
      n.upstream.all (fun u => placed.contains u) && topoOKb (n.id :: placed) rest

/-- A well-formed (validated, topologically ordered) graph. -/
def WF (g : List Node) : Prop :=
  (g.map Node.id).Nodup ∧ topoOKb [] g = true

/-! ### Terminal callbacks -/

/-- Modelled from the spec: the terminal callback dispatched exactly once per
run: `on_success`, or `on_failure` citing the first failed node's identity and
its failure reason. -/
inductive Callback where
  | onSuccessCb
  | onFailureCb (nodeId : String) (reason : String)
deriving DecidableEq, Repr

/-- Failure reason carried by a node's Action outcome. -/
def failReason (n : Node) : String :=
  match n.out with
  | .fail r => r
  | _ => ""

/-- Modelled from the spec: every node not intentionally skipped reached
`success`. -/
def runSuccessB (g : List Node) : Bool :=
  g.all fun n => runGraph g n.id == .success || runGraph g n.id == .skipped

/-- The first node of the run whose terminal state is `failed`. -/
def firstFailed (g : List Node) : Option Node :=
  g.find? fun n => runGraph g n.id == .failed

/-- Modelled from the spec: terminal-callback dispatch at the run's terminal
transition. -/
def terminalCallback (g : List Node) : Callback :=
  if runSuccessB g then .onSuccessCb
  else
    match firstFailed g with
    | some n => .onFailureCb n.id (failReason n)
    | none => .onFailureCb "" ""

/-! ### Retry / backoff -/

/-- Modelled from the spec: §4.2 — the delay before re-invoking the Action
after attempt number `attempt`: `min (base_delay * multiplier ^ attempt)
max_delay`. -/
def backoffDelay (baseDelay mult maxDelay attempt : Nat) : Nat :=
  min (baseDelay * mult ^ attempt) maxDelay

/-- Modelled from the spec: the retry loop — invoke the Action; on failure,
while attempts remain, back off and re-invoke; returns the number of
invocations made and whether the node ended in `success`.  `act i` is the
outcome of the `i`-th invocation (counting from 0). -/
def retryGo (act : Nat → Bool) (maxAttempts : Nat) :
    Nat → Nat → Nat × Bool
  | attempt, 0 => (attempt, false)
  | attempt, fuel + 1 =>
      if act attempt then (attempt + 1, true)
      else if attempt + 1 < maxAttempts then retryGo act maxAttempts (attempt + 1) fuel
      else (attempt + 1, false)

/-- Modelled from the spec: execute a node's Action under its retry policy
(`maxAttempts` total invocations permitted). -/
def retryRun (act : Nat → Bool) (maxAttempts : Nat) : Nat × Bool :=
  retryGo act maxAttempts 0 maxAttempts

/-! ### Run admission (single active run per graph) -/

/-- Modelled from the spec: the error returned when `start_run` is issued for
a graph that already has an active run. -/
inductive StartError where
  | alreadyActive
deriving DecidableEq, Repr

/-- Modelled from the spec: the engine's record of active runs — one
`(graph identity, run identity)` pair per active run. -/
structure Engine where
  runs : List (String × Nat)
  nextRunId : Nat
deriving DecidableEq, Repr

/-- The engine with no active runs. -/
def Engine.empty : Engine := ⟨[], 0⟩

/-- How many runs of graph `gid` are active. -/
def activeFor (e : Engine) (gid : String) : Nat :=
  e.runs.countP fun p => p.1 == gid

/-- Modelled from the spec: `start_run(graph_identity, ...)` — rejected with a
distinct error (and the engine state left unchanged, i.e. not queued) when a
run for that graph is already active. -/
def start_run (e : Engine) (gid : String) : Except StartError Nat × Engine :=
  if e.runs.any (fun p => p.1 == gid) then (.error .alreadyActive, e)
  else (.ok e.nextRunId, ⟨(gid, e.nextRunId) :: e.runs, e.nextRunId + 1⟩)

/-- Modelled from the spec: a run of graph `gid` reaching its terminal state
is removed from the active set. -/
def finish_run (e : Engine) (gid : String) : Engine :=
  ⟨e.runs.filter (fun p => !(p.1 == gid)), e.nextRunId⟩

/-- An external request stream: start or finish runs. -/
inductive EngineOp where
  | startOp (gid : String)
  | finishOp (gid : String)

/-- Apply one request. -/
def applyOp (e : Engine) : EngineOp → Engine
  | .startOp gid => (start_run e gid).2
  | .finishOp gid => finish_run e gid

/-- Apply a request stream from the idle engine. -/
def applyOps (ops : List EngineOp) : Engine :=
  ops.foldl applyOp Engine.empty

/-! ### Embedded source: configuration dictionaries -/

/-- The `DEFAULT_ARGS` dictionaries of the two DAG files (durations in
seconds). -/
structure DefaultArgs where
  owner : String
  depends_on_past : Bool
  email : List String
  email_on_failure : Bool
  email_on_retry : Bool
  retries : Nat
  retry_delay_seconds : Nat
  retry_exponential_backoff : Bool
  max_retry_delay_seconds : Option Nat
  execution_timeout_seconds : Nat
deriving DecidableEq, Repr

/-- `DEFAULT_ARGS` of `src/airflow/dags/dbt_dag.py`. -/
def dbtDefaultArgs : DefaultArgs :=
  { owner := "data-engineering"
    depends_on_past := false
    email := ["data-alerts@company.com"]
    email_on_failure := true
    email_on_retry := false
    retries := 2
    retry_delay_seconds := 300
    retry_exponential_backoff := true
    max_retry_delay_seconds := some 1800
    execution_timeout_seconds := 3600 }

/-- `DEFAULT_ARGS` of `src/airflow/dags/uber_analytics_dag.py`. -/
def uberDefaultArgs : DefaultArgs :=
  { owner := "uber-data-engineering"
    depends_on_past := false
    email := ["data-alerts@uber.com"]
    email_on_failure := true
    email_on_retry := false
    retries := 2
    retry_delay_seconds := 300
    retry_exponential_backoff := true
    max_retry_delay_seconds := none
    execution_timeout_seconds := 7200 }

/-- Total invocations permitted under an Airflow-style retry policy:
the initial attempt plus `retries` retries. -/
def maxAttemptsOf (a : DefaultArgs) : Nat :=
  a.retries + 1

/-- DAG-level keyword arguments of the two `DAG(...)` constructors. -/
structure DagConfig where
  dag_id : String
  schedule_interval : String
  catchup : Bool
  max_active_runs : Nat
  has_on_failure_callback : Bool
  has_on_success_callback : Bool
deriving DecidableEq, Repr

/-- The `DAG(...)` call of `src/airflow/dags/dbt_dag.py`. -/
def dbtDagConfig : DagConfig :=
  { dag_id := "employee_analytics_pipeline"
    schedule_interval := "0 6 * * *"
    catchup := false
    max_active_runs := 1
    has_on_failure_callback := true
    has_on_success_callback := true }

/-- The `DAG(...)` call of `src/airflow/dags/uber_analytics_dag.py`. -/
def uberDagConfig : DagConfig :=
  { dag_id := "uber_analytics_pipeline"
    schedule_interval := "0 */4 * * *"
    catchup := false
    max_active_runs := 1
    has_on_failure_callback := true
    has_on_success_callback := true }

/-! ### Embedded source: quality-gate callables -/

/-- `check_data_quality` of `dbt_dag.py`: ignores its context and always
returns the mart group's start task. -/
def check_data_quality (_ctx : Nat) : String :=
  "mart_models.start_mart"

/-- `check_quality_gate` of `uber_analytics_dag.py`: ignores its context and
always returns the dimensions group's start task. -/
def check_quality_gate (_ctx : Nat) : String :=
  "dimensions.start_dimensions"

/-! ### Embedded source: the source-freshness shell command -/

/-- A fragment of shell: plain commands, the `true` builtin, `&&`, `||`. -/
inductive Sh where
  | cmd (name : String)
  | trueCmd
  | andThen (a b : Sh)
  | orElse (a b : Sh)
deriving DecidableEq, Repr

/-- Exit status of a shell fragment, given the exit status of each underlying
plain command.  `a && b` runs `b` only when `a` exits 0; `a || b` exits 0
when `a` does, else runs `b`; `true` exits 0. -/
def evalSh (env : String → Nat) : Sh → Nat
  | .cmd s => env s
  | .trueCmd => 0
  | .andThen a b => if evalSh env a = 0 then evalSh env b else evalSh env a
  | .orElse a b => if evalSh env a = 0 then 0 else evalSh env b

/-- Render a shell fragment back to its command-string form. -/
def renderSh : Sh → String
  | .cmd s => s
  | .trueCmd => "true"
  | .andThen a b => renderSh a ++ " && " ++ renderSh b
  | .orElse a b => renderSh a ++ " || " ++ renderSh b

/-- `PROJECT_ROOT` of `dbt_dag.py`. -/
def PROJECT_ROOT : String :=
  "/Applications/MAMP/htdocs/DataEngineeringAcademy/DBT+Airflow"

/-- `DBT_PROJECT_PATH` of `dbt_dag.py`. -/
def DBT_PROJECT_PATH : String :=
  PROJECT_ROOT ++ "/dbt/employee_analytics"

/-- `DBT_VENV_PATH` of `dbt_dag.py`. -/
def DBT_VENV_PATH : String :=
  PROJECT_ROOT ++ "/dbt/demo_dbt_env"

/-- `DBT_CMD_PREFIX` of `dbt_dag.py` (the venv-activation and cd preamble). -/
def DBT_CMD_PRE : String :=
  "source " ++ DBT_VENV_PATH ++ "/bin/activate && cd " ++ DBT_PROJECT_PATH

/-- The `bash_command` of the `check_source_freshness` task
(`dbt_dag.py`, lines 219–223). -/
def source_freshness_command : String :=
  DBT_CMD_PRE ++ " && dbt source freshness || true"

/-- The same command parsed as shell: `((activate && cd) && freshness) || true`. -/
def source_freshness_sh : Sh :=
  .orElse
    (.andThen
      (.andThen (.cmd ("source " ++ DBT_VENV_PATH ++ "/bin/activate"))
        (.cmd ("cd " ++ DBT_PROJECT_PATH)))
      (.cmd "dbt source freshness"))
    .trueCmd

/-- A BashOperator's action outcome from its command's exit status. -/
def outcomeOfExit (e : Nat) : Outcome :=
  if e = 0 then .ok else .fail "nonzero exit status"

/-! ### Embedded source: the `employee_analytics_pipeline` dependency graph

Task-group members carry their group-qualified identities (`group.task`);
an edge into a group targets the group's root task and an edge out of a
group sources from its leaf task, exactly as the `>>` wiring of the DAG
file resolves them.  The list is written in the topological order induced
by the wiring.  `f` gives each BashOperator task's action outcome (the
EmptyOperator markers always succeed, and the branch task returns its
selection). -/

/-- The dbt DAG's graph, with BashOperator outcomes supplied by `f`. -/
def dbtGraphOf (f : String → Outcome) : List Node :=
  [ ⟨"start", [], .allSuccess, .ok⟩
  , ⟨"seed_data.start_seeds", ["start"], .allSuccess, .ok⟩
  , ⟨"seed_data.load_seeds", ["seed_data.start_seeds"], .allSuccess,
      f "seed_data.load_seeds"⟩
  , ⟨"seed_data.end_seeds", ["seed_data.load_seeds"], .allSuccess, .ok⟩
  , ⟨"snapshots.start_snapshots", ["seed_data.end_seeds"], .allSuccess, .ok⟩
  , ⟨"snapshots.run_snapshots", ["snapshots.start_snapshots"], .allSuccess,
      f "snapshots.run_snapshots"⟩
  , ⟨"snapshots.end_snapshots", ["snapshots.run_snapshots"], .allSuccess, .ok⟩
  , ⟨"source_models.start_source", ["snapshots.end_snapshots"], .allSuccess, .ok⟩
  , ⟨"source_models.check_source_freshness", ["source_models.start_source"],
      .allSuccess, f "source_models.check_source_freshness"⟩
  , ⟨"source_models.stg_employees_raw", ["source_models.check_source_freshness"],
      .allSuccess, f "source_models.stg_employees_raw"⟩
  , ⟨"source_models.end_source", ["source_models.stg_employees_raw"], .allSuccess, .ok⟩
  , ⟨"staging_models.start_staging", ["source_models.end_source"], .allSuccess, .ok⟩
  , ⟨"staging_models.int_employees_merged", ["staging_models.start_staging"],
      .allSuccess, f "staging_models.int_employees_merged"⟩
  , ⟨"staging_models.int_employees_snapshot", ["staging_models.start_staging"],
      .allSuccess, f "staging_models.int_employees_snapshot"⟩
  , ⟨"staging_models.end_staging",
      ["staging_models.int_employees_merged", "staging_models.int_employees_snapshot"],
      .allSuccess, .ok⟩
  , ⟨"data_quality_gate", ["staging_models.end_staging"], .allSuccess,
      .branch ["mart_models.start_mart"]⟩
  , ⟨"quality_check_failed", ["data_quality_gate"], .allSuccess, .ok⟩
  , ⟨"mart_models.start_mart", ["data_quality_gate"], .allSuccess, .ok⟩
  , ⟨"mart_models.fct_employee_history", ["mart_models.start_mart"], .allSuccess,
      f "mart_models.fct_employee_history"⟩
  , ⟨"mart_models.dim_departments", ["mart_models.start_mart"], .allSuccess,
      f "mart_models.dim_departments"⟩
  , ⟨"mart_models.dim_job_titles", ["mart_models.start_mart"], .allSuccess,
      f "mart_models.dim_job_titles"⟩
  , ⟨"mart_models.dbt_audit_log", ["mart_models.start_mart"], .allSuccess,
      f "mart_models.dbt_audit_log"⟩
  , ⟨"mart_models.end_mart",
      ["mart_models.fct_employee_history", "mart_models.dim_departments",
       "mart_models.dim_job_titles", "mart_models.dbt_audit_log"],
      .allSuccess, .ok⟩
  , ⟨"data_tests.start_tests", ["mart_models.end_mart"], .allSuccess, .ok⟩
  , ⟨"data_tests.run_all_tests", ["data_tests.start_tests"], .allSuccess,
      f "data_tests.run_all_tests"⟩
  , ⟨"data_tests.end_tests", ["data_tests.run_all_tests"], .allSuccess, .ok⟩
  , ⟨"generate_docs", ["data_tests.end_tests"], .allSuccess, f "generate_docs"⟩
  , ⟨"end", ["quality_check_failed", "generate_docs"], .noneFailed, .ok⟩ ]

/-- The dbt DAG's graph on the happy path: every BashOperator succeeds. -/
def dbtGraph : List Node :=
  dbtGraphOf fun _ => .ok

/-! ### Embedded source: the `uber_analytics_pipeline` dependency graph -/

/-- The uber DAG's graph, with BashOperator outcomes supplied by `f`. -/
def uberGraphOf (f : String → Outcome) : List Node :=
  [ ⟨"start", [], .allSuccess, .ok⟩
  , ⟨"seeds.start_seeds", ["start"], .allSuccess, .ok⟩
  , ⟨"seeds.load_reference_data", ["seeds.start_seeds"], .allSuccess,
      f "seeds.load_reference_data"⟩
  , ⟨"seeds.end_seeds", ["seeds.load_reference_data"], .allSuccess, .ok⟩
  , ⟨"snapshots.start_snapshots", ["seeds.end_seeds"], .allSuccess, .ok⟩
  , ⟨"snapshots.snap_driver", ["snapshots.start_snapshots"], .allSuccess,
      f "snapshots.snap_driver"⟩
  , ⟨"snapshots.snap_rider", ["snapshots.start_snapshots"], .allSuccess,
      f "snapshots.snap_rider"⟩
  , ⟨"snapshots.end_snapshots", ["snapshots.snap_driver", "snapshots.snap_rider"],
      .allSuccess, .ok⟩
  , ⟨"staging.start_staging", ["snapshots.end_snapshots"], .allSuccess, .ok⟩
  , ⟨"staging.stg_trips", ["staging.start_staging"], .allSuccess, f "staging.stg_trips"⟩
  , ⟨"staging.stg_entities", ["staging.start_staging"], .allSuccess,
      f "staging.stg_entities"⟩
  , ⟨"staging.stg_other", ["staging.start_staging"], .allSuccess, f "staging.stg_other"⟩
  , ⟨"staging.end_staging",
      ["staging.stg_trips", "staging.stg_entities", "staging.stg_other"],
      .allSuccess, .ok⟩
  , ⟨"integration.start_integration", ["staging.end_staging"], .allSuccess, .ok⟩
  , ⟨"integration.int_trips_unified", ["integration.start_integration"], .allSuccess,
      f "integration.int_trips_unified"⟩
  , ⟨"integration.int_payments_reconciled", ["integration.int_trips_unified"],
      .allSuccess, f "integration.int_payments_reconciled"⟩
  , ⟨"integration.end_integration", ["integration.int_payments_reconciled"],
      .allSuccess, .ok⟩
  , ⟨"quality_gate_1", ["integration.end_integration"], .allSuccess,
      .branch ["dimensions.start_dimensions"]⟩
  , ⟨"quality_failed", ["quality_gate_1"], .allSuccess, .ok⟩
  , ⟨"dimensions.start_dimensions", ["quality_gate_1"], .allSuccess, .ok⟩
  , ⟨"dimensions.dim_date", ["dimensions.start_dimensions"], .allSuccess,
      f "dimensions.dim_date"⟩
  , ⟨"dimensions.dim_geography", ["dimensions.dim_date"], .allSuccess,
      f "dimensions.dim_geography"⟩
  , ⟨"dimensions.dim_driver", ["dimensions.start_dimensions"], .allSuccess,
      f "dimensions.dim_driver"⟩
  , ⟨"dimensions.dim_rider", ["dimensions.start_dimensions"], .allSuccess,
      f "dimensions.dim_rider"⟩
  , ⟨"dimensions.dim_other", ["dimensions.dim_driver", "dimensions.dim_rider"],
      .allSuccess, f "dimensions.dim_other"⟩
  , ⟨"dimensions.end_dimensions", ["dimensions.dim_other", "dimensions.dim_geography"],
      .allSuccess, .ok⟩
  , ⟨"facts.start_facts", ["dimensions.end_dimensions"], .allSuccess, .ok⟩
  , ⟨"facts.fct_trips", ["facts.start_facts"], .allSuccess, f "facts.fct_trips"⟩
  , ⟨"facts.fct_trip_accumulating", ["facts.fct_trips"], .allSuccess,
      f "facts.fct_trip_accumulating"⟩
  , ⟨"facts.fct_driver_earnings", ["facts.fct_trips"], .allSuccess,
      f "facts.fct_driver_earnings"⟩
  , ⟨"facts.fct_surge_snapshot", ["facts.start_facts"], .allSuccess,
      f "facts.fct_surge_snapshot"⟩
  , ⟨"facts.end_facts",
      ["facts.fct_trip_accumulating", "facts.fct_driver_earnings",
       "facts.fct_surge_snapshot"], .allSuccess, .ok⟩
  , ⟨"marts.start_marts", ["facts.end_facts"], .allSuccess, .ok⟩
  , ⟨"marts.mart_revenue_daily", ["marts.start_marts"], .allSuccess,
      f "marts.mart_revenue_daily"⟩
  , ⟨"marts.mart_driver_performance", ["marts.start_marts"], .allSuccess,
      f "marts.mart_driver_performance"⟩
  , ⟨"marts.mart_reconciliation", ["marts.start_marts"], .allSuccess,
      f "marts.mart_reconciliation"⟩
  , ⟨"marts.end_marts",
      ["marts.mart_revenue_daily", "marts.mart_driver_performance",
       "marts.mart_reconciliation"], .allSuccess, .ok⟩
  , ⟨"quality_tests.start_tests", ["marts.end_marts"], .allSuccess, .ok⟩
  , ⟨"quality_tests.run_all_tests", ["quality_tests.start_tests"], .allSuccess,
      f "quality_tests.run_all_tests"⟩
  , ⟨"quality_tests.generate_docs", ["quality_tests.run_all_tests"], .allSuccess,
      f "quality_tests.generate_docs"⟩
  , ⟨"quality_tests.end_tests", ["quality_tests.generate_docs"], .allSuccess, .ok⟩
  , ⟨"end", ["quality_failed", "quality_tests.end_tests"],
      .noneFailedMinOneSuccess, .ok⟩ ]

/-- The uber DAG's graph on the happy path: every BashOperator succeeds. -/
def uberGraph : List Node :=
  uberGraphOf fun _ => .ok

/-- The direct downstream identity set of a node, read off the edge set. -/
def downstreamOf (g : List Node) (id : String) : List String :=
  (g.filter fun n => n.upstream.contains id).map Node.id

/-- `t` lies strictly downstream of `src` in the topologically ordered graph
`g`, along edges that never enter the node named `avoid`: a single forward
sweep accumulates the reachable identities. -/
def descFrom (g : List Node) (avoid : String) (src : String) : List String :=
  g.foldl
    (fun acc n =>
      if n.id ≠ avoid ∧ n.upstream.any (fun u => acc.contains u) then acc ++ [n.id]
      else acc)
    [src]

/-- `t` is reachable from `b` only through `y`: reachable, but no longer
reachable once paths through `y` are barred. -/
def exclusivelyViaB (g : List Node) (b y t : String) : Bool :=
  (descFrom g "" b).contains t && !((descFrom g y b).contains t)

/-- A one-node graph whose node lists itself upstream: a cycle. -/
def selfLoopGraph : List Node :=
  [⟨"a", ["a"], .allSuccess, .ok⟩]

/-- A two-node chain used to instantiate the engine theorems. -/
def chainGraph : List Node :=
  [⟨"a", [], .allSuccess, .ok⟩, ⟨"b", ["a"], .allSuccess, .ok⟩]

/-- A two-node graph whose root Action always fails. -/
def failGraph : List Node :=
  [⟨"a", [], .allSuccess, .fail "boom"⟩, ⟨"b", ["a"], .allSuccess, .ok⟩]

/-- Upstreams `{A: failed, B: success}` feeding a
`none_failed_min_one_success` node. -/
def c2GraphFS : List Node :=
  [⟨"A", [], .allSuccess, .fail "boom"⟩, ⟨"B", [], .allSuccess, .ok⟩,
   ⟨"C", ["A", "B"], .noneFailedMinOneSuccess, .ok⟩]

/-- Upstreams `{A: failed, B: failed}` feeding the same node. -/
def c2GraphFF : List Node :=
  [⟨"A", [], .allSuccess, .fail "boom"⟩, ⟨"B", [], .allSuccess, .fail "crash"⟩,
   ⟨"C", ["A", "B"], .noneFailedMinOneSuccess, .ok⟩]

/-- Upstreams `{A: skipped, B: success}` (A pruned by a branch) feeding the
same node. -/
def c2GraphSkip : List Node :=
  [⟨"br", [], .allSuccess, .branch ["B"]⟩,
   ⟨"A", ["br"], .allSuccess, .ok⟩, ⟨"B", ["br"], .allSuccess, .ok⟩,
   ⟨"C", ["A", "B"], .noneFailedMinOneSuccess, .ok⟩]

/-! ### Run Record fold machinery -/

theorem runFrom_not_mem (g : List Node) :
    ∀ (rest : List Node) (env : String → Status) (id : String),
      id ∉ rest.map Node.id → runFrom g env rest id = env id := by
  intro rest
  induction rest with
  | nil => intro env id _; rfl
  | cons n rest ih =>
      intro env id hid
      simp only [List.map_cons, List.mem_cons, not_or] at hid
      rw [runFrom, ih _ _ hid.2, updEnv, if_neg hid.1]

theorem runFrom_append (g : List Node) :
    ∀ (l₁ l₂ : List Node) (env : String → Status),
      runFrom g env (l₁ ++ l₂) = runFrom g (runFrom g env l₁) l₂ := by
  intro l₁
  induction l₁ with
  | nil => intro l₂ env; rfl
  | cons n l₁ ih => intro l₂ env; rw [List.cons_append, runFrom, runFrom, ih]

/-- With unique identities, a node's final status is the status it settles to
at its own scheduler step. -/
theorem runGraph_eq_settle {g l₁ l₂ : List Node} {n : Node}
    (hg : g = l₁ ++ n :: l₂) (hnd : (g.map Node.id).Nodup) :
    runGraph g n.id = settleNode g (runFrom g initEnv l₁) n := by
  subst hg
  have hnid : n.id ∉ l₂.map Node.id := by
    simp only [List.map_append, List.map_cons, List.nodup_append,
      List.nodup_cons] at hnd
    exact hnd.2.1.1
  unfold runGraph
  rw [runFrom_append, runFrom, runFrom_not_mem _ l₂ _ _ hnid]
  simp [updEnv]

/-- A node settles to `skipped`, `upstream_failed`, or its Action's outcome. -/
theorem settleNode_cases (g : List Node) (env : String → Status) (n : Node) :
    settleNode g env n = .skipped ∨ settleNode g env n = .upstreamFailed ∨
    settleNode g env n = runOutcome n.out := by
  unfold settleNode readyStatus
  repeat' split
  all_goals simp

/-- The status a node settles to is never `pending`. -/
theorem settleNode_ne_pending (g : List Node) (env : String → Status) (n : Node) :
    settleNode g env n ≠ .pending := by
  have hout : runOutcome n.out ≠ Status.pending := by
    cases n.out <;> simp [runOutcome]
  rcases settleNode_cases g env n with h | h | h <;> rw [h]
  · simp
  · simp
  · exact hout

/-- Final statuses already settled are stable: the final Run Record agrees
with the Record at node `n`'s step on every identity settled before `n`. -/
theorem runGraph_agree {g l₁ l₂ : List Node} {n : Node}
    (hg : g = l₁ ++ n :: l₂) (hnd : (g.map Node.id).Nodup)
    {id : String} (hid : id ∈ l₁.map Node.id) :
    runGraph g id = runFrom g initEnv l₁ id := by
  subst hg
  have hnot : id ∉ ((n :: l₂).map Node.id) := by
    simp only [List.map_append, List.nodup_append] at hnd
    exact fun hmem => hnd.2.2 hid hmem
  unfold runGraph
  rw [runFrom_append, runFrom_not_mem _ (n :: l₂) _ _ hnot]

/-- Every node of a graph with unique identities ends in a terminal status. -/
theorem runGraph_ne_pending {g : List Node} (hnd : (g.map Node.id).Nodup)
    {n : Node} (hn : n ∈ g) : runGraph g n.id ≠ .pending := by
  obtain ⟨l₁, l₂, hg⟩ := List.append_of_mem hn
  rw [runGraph_eq_settle hg hnd]
  exact settleNode_ne_pending _ _ _

/-! ### Topological-sort correctness -/

theorem pickReady_spec :
    ∀ (l : List Node) (placed : List String) (n : Node) (rest : List Node),
      pickReady placed l = some (n, rest) →
      (n :: rest).Perm l ∧ ∀ u ∈ n.upstream, u ∈ placed := by
  intro l
  induction l with
  | nil => intro placed n rest h; simp [pickReady] at h
  | cons m tail ih =>
      intro placed n rest h
      rw [pickReady] at h
      by_cases hall : (m.upstream.all fun u => placed.contains u) = true
      · rw [if_pos hall] at h
        cases h
        refine ⟨List.Perm.refl _, ?_⟩
        intro u hu
        have := List.all_eq_true.mp hall u hu
        simpa using this
      · rw [if_neg hall] at h
        cases hrec : pickReady placed tail with
        | none => rw [hrec] at h; cases h
        | some pr =>
            obtain ⟨m2, rest2⟩ := pr
            rw [hrec] at h
            simp only [Option.some.injEq, Prod.mk.injEq] at h
            obtain ⟨rfl, rfl⟩ := h
            obtain ⟨hperm, hup⟩ := ih placed _ _ hrec
            exact ⟨List.Perm.trans (List.Perm.swap _ _ _)
              (List.Perm.cons _ hperm), hup⟩

theorem topoGo_spec :
    ∀ (fuel : Nat) (placed : List String) (rem out : List Node),
      topoGo fuel placed rem = some out →
      out.Perm rem ∧ TopoOK placed out := by
  intro fuel
  induction fuel with
  | zero =>
      intro placed rem out h
      cases rem with
      | nil =>
          simp only [topoGo] at h
          cases h
          exact ⟨List.Perm.refl _, trivial⟩
      | cons m tail => simp [topoGo] at h
  | succ fuel ih =>
      intro placed rem out h
      cases rem with
      | nil =>
          simp only [topoGo] at h
          cases h
          exact ⟨List.Perm.refl _, trivial⟩
      | cons m tail =>
          simp only [topoGo] at h
          cases hpick : pickReady placed (m :: tail) with
          | none => rw [hpick] at h; cases h
          | some pr =>
              obtain ⟨n, rest⟩ := pr
              rw [hpick] at h
              dsimp only at h
              rw [Option.map_eq_some'] at h
              obtain ⟨out', hgo, rfl⟩ := h
              obtain ⟨hperm', hok'⟩ := ih (n.id :: placed) rest out' hgo
              obtain ⟨hperm, hup⟩ := pickReady_spec (m :: tail) placed n rest hpick
              exact ⟨List.Perm.trans (List.Perm.cons _ hperm') hperm, hup, hok'⟩

/-- The indices of a topologically ordered list respect the edges. -/
theorem topoOK_indexOf :
    ∀ (l : List Node) (placed : List String),
      TopoOK placed l →
      (∀ id ∈ placed, id ∉ l.map Node.id) →
      (l.map Node.id).Nodup →
      ∀ v ∈ l, ∀ u ∈ v.upstream,
        u ∈ placed ∨
          (l.map Node.id).indexOf u < (l.map Node.id).indexOf v.id := by
  intro l
  induction l with
  | nil => intro placed _ _ _ v hv; exact absurd hv (by simp)
  | cons n tail ih =>
      intro placed hok hdisj hnd v hv u hu
      obtain ⟨hupn, hok'⟩ := hok
      simp only [List.map_cons, List.nodup_cons] at hnd
      rcases List.mem_cons.mp hv with rfl | hvtail
      · exact Or.inl (hupn u hu)
      · have hdisj' : ∀ id ∈ n.id :: placed, id ∉ tail.map Node.id := by
          intro id hid
          rcases List.mem_cons.mp hid with rfl | hidp
          · exact hnd.1
          · intro hmem
            exact hdisj id hidp (List.mem_cons_of_mem _ hmem)
        rcases ih (n.id :: placed) hok' hdisj' hnd.2 v hvtail u hu with hmem | hlt
        · rcases List.mem_cons.mp hmem with rfl | hup
          · right
            have hvne : n.id ≠ v.id := by
              intro he
              exact hnd.1 (he ▸ List.mem_map_of_mem Node.id hvtail)
            simp only [List.map_cons]
            rw [List.indexOf_cons_self, List.indexOf_cons_ne _ hvne]
            exact Nat.succ_pos _
          · exact Or.inl hup
        · right
          have hvmem : v.id ∈ tail.map Node.id := List.mem_map_of_mem Node.id hvtail
          have hvlt := List.indexOf_lt_length.mpr hvmem
          have humem : u ∈ tail.map Node.id :=
            List.indexOf_lt_length.mp (Nat.lt_trans hlt hvlt)
          have hune : n.id ≠ u := fun he => hnd.1 (he ▸ humem)
          have hvne : n.id ≠ v.id := by
            intro he
            exact hnd.1 (he ▸ hvmem)
          simp only [List.map_cons]
          rw [List.indexOf_cons_ne _ hune, List.indexOf_cons_ne _ hvne]
          exact Nat.succ_lt_succ hlt

/-- Edges of a validated order strictly increase the index. -/
theorem topoOK_edge_lt {l : List Node} (hok : TopoOK [] l)
    (hnd : (l.map Node.id).Nodup) {u v : String} (he : Edge l u v) :
    (l.map Node.id).indexOf u < (l.map Node.id).indexOf v := by
  obtain ⟨n, hn, rfl, hu⟩ := he
  rcases topoOK_indexOf l [] hok (by simp) hnd n hn u hu with hmem | hlt
  · exact absurd hmem (List.not_mem_nil u)
  · exact hlt

/-- A graph admitting a topological order has no cycle. -/
theorem topoOK_acyclic {l : List Node} (hok : TopoOK [] l)
    (hnd : (l.map Node.id).Nodup) : ¬ HasCycle l := by
  rintro ⟨a, ha⟩
  have hmono : ∀ u v, Reaches l u v →
      (l.map Node.id).indexOf u < (l.map Node.id).indexOf v := by
    intro u v h
    induction h with
    | single he => exact topoOK_edge_lt hok hnd he
    | tail _ he ih => exact Nat.lt_trans ih (topoOK_edge_lt hok hnd he)
  exact Nat.lt_irrefl _ (hmono a a ha)

theorem topoOK_of_b :
    ∀ (g : List Node) (placed : List String),
      topoOKb placed g = true → TopoOK placed g := by
  intro g
  induction g with
  | nil => intro placed _; trivial
  | cons n tail ih =>
      intro placed h
      rw [topoOKb, Bool.and_eq_true] at h
      refine ⟨?_, ih _ h.2⟩
      intro u hu
      have := List.all_eq_true.mp h.1 u hu
      simpa using this

theorem edge_of_perm {l l' : List Node} (hp : l.Perm l') {u v : String}
    (he : Edge l u v) : Edge l' u v := by
  obtain ⟨n, hn, hv, hu⟩ := he
  exact ⟨n, hp.mem_iff.mp hn, hv, hu⟩

theorem hasCycle_of_perm {l l' : List Node} (hp : l.Perm l')
    (hc : HasCycle l) : HasCycle l' := by
  obtain ⟨a, ha⟩ := hc
  exact ⟨a, Relation.TransGen.mono (fun u v he => edge_of_perm hp he) ha⟩

theorem dangling_iff (g : List Node) : danglingB g = true ↔ Dangling g := by
  unfold danglingB Dangling
  simp [List.any_eq_true]

theorem buildGraph_ok {raw order : List Node}
    (h : buildGraph raw = .ok order) :
    (raw.map Node.id).Nodup ∧ danglingB raw = false ∧
    order.Perm raw ∧ TopoOK [] order := by
  unfold buildGraph at h
  split at h
  · cases h
  · rename_i h1
    split at h
    · cases h
    · rename_i h2
      split at h
      · cases h
      · rename_i order' hts
        cases h
        obtain ⟨hperm, hok⟩ := topoGo_spec raw.length [] raw _ hts
        refine ⟨?_, ?_, hperm, hok⟩
        · simpa using h1
        · simpa using h2

/-- Claim C6: a graph definition containing a cycle or a dangling reference is
rejected synchronously at construction (so such an error never arises during
a run), and the two DAG files' graphs validate: they build successfully, are
acyclic, and every edge endpoint exists. -/
theorem claim_C6_construction_errors :
    (∀ raw : List Node, HasCycle raw ∨ Dangling raw →
      ∃ e, buildGraph raw = .error e)
  ∧ (buildGraph dbtGraph).isOk = true ∧ (buildGraph uberGraph).isOk = true
  ∧ ¬ HasCycle dbtGraph ∧ ¬ Dangling dbtGraph
  ∧ ¬ HasCycle uberGraph ∧ ¬ Dangling uberGraph := by
  have hrej : ∀ raw : List Node, HasCycle raw ∨ Dangling raw →
      ∃ e, buildGraph raw = .error e := by
    intro raw h
    cases hb : buildGraph raw with
    | error e => exact ⟨e, rfl⟩
    | ok order =>
        exfalso
        obtain ⟨hnd, hdang, hperm, hok⟩ := buildGraph_ok hb
        rcases h with hcyc | hdangP
        · have hnd' : (order.map Node.id).Nodup :=
            ((hperm.map Node.id).nodup_iff).mpr hnd
          exact topoOK_acyclic hok hnd' (hasCycle_of_perm hperm.symm hcyc)
        · rw [← dangling_iff] at hdangP
          rw [hdang] at hdangP
          cases hdangP
  refine ⟨hrej, by decide, by decide, ?_, ?_, ?_, ?_⟩
  · exact topoOK_acyclic (topoOK_of_b _ _ (by decide)) (by decide)
  · rw [← dangling_iff]; decide
  · exact topoOK_acyclic (topoOK_of_b _ _ (by decide)) (by decide)
  · rw [← dangling_iff]; decide

/-- Witness: the self-loop graph is rejected at construction. -/
theorem claim_C6_witness : ∃ e, buildGraph selfLoopGraph = .error e :=
  claim_C6_construction_errors.1 selfLoopGraph
    (Or.inl ⟨"a", Relation.TransGen.single
      ⟨⟨"a", ["a"], .allSuccess, .ok⟩, by simp [selfLoopGraph], rfl, by simp⟩⟩)

/-- Claim C7: for every graph that validates (in particular it is acyclic and
its Actions all terminate — every Action here is a terminating value), the
run settles every node to a terminal status in one scheduler step per node —
no deadlock — and the run itself ends in one of the two terminal run states
(success callback or failure callback). -/
theorem claim_C7_termination :
    ∀ raw order : List Node, buildGraph raw = .ok order →
      (∀ n ∈ order, (runGraph order n.id).isTerminal = true)
    ∧ (terminalCallback order = .onSuccessCb ∨
        ∃ id r, terminalCallback order = .onFailureCb id r) := by
  intro raw order hb
  obtain ⟨hnd, _, hperm, _⟩ := buildGraph_ok hb
  have hnd' : (order.map Node.id).Nodup := ((hperm.map Node.id).nodup_iff).mpr hnd
  constructor
  · intro n hn
    have := runGraph_ne_pending hnd' hn
    cases hstat : runGraph order n.id with
    | pending => exact absurd hstat this
    | success => rfl
    | failed => rfl
    | skipped => rfl
    | upstreamFailed => rfl
  · cases hc : terminalCallback order with
    | onSuccessCb => exact Or.inl rfl
    | onFailureCb id r => exact Or.inr ⟨id, r, rfl⟩

/-- Witness: the two-node chain builds and its run terminates. -/
theorem claim_C7_witness :
    (∀ n ∈ chainGraph, (runGraph chainGraph n.id).isTerminal = true)
  ∧ (terminalCallback chainGraph = .onSuccessCb ∨
      ∃ id r, terminalCallback chainGraph = .onFailureCb id r) :=
  claim_C7_termination chainGraph chainGraph (by rfl)

/-! ### Terminal-callback analysis -/

theorem isTermBad_iff {s : Status} :
    isTermBad s = true ↔ s = .failed ∨ s = .upstreamFailed := by
  cases s <;> simp [isTermBad]

theorem readyStatus_upstreamFailed {n : Node} {us : List Status}
    (h : readyStatus n us = .upstreamFailed) :
    ∃ s ∈ us, isTermBad s = true := by
  have hout : runOutcome n.out ≠ Status.upstreamFailed := by
    cases n.out <;> simp [runOutcome]
  unfold readyStatus at h
  split at h
  · exact absurd h hout
  · revert h
    cases n.rule <;> dsimp only <;> intro h
    case allSuccess =>
        split at h
        · exact absurd h hout
        · split at h
          · rename_i hany; exact List.any_eq_true.mp hany
          · cases h
    case allDone => exact absurd h hout
    case noneFailed =>
        split at h
        · rename_i hany; exact List.any_eq_true.mp hany
        · exact absurd h hout
    case noneFailedMinOneSuccess =>
        split at h
        · rename_i hany; exact List.any_eq_true.mp hany
        · split at h
          · exact absurd h hout
          · cases h
    case oneSuccess =>
        split at h
        · exact absurd h hout
        · split at h
          · rename_i hany; exact List.any_eq_true.mp hany
          · cases h

theorem settleNode_upstreamFailed {g : List Node} {env : String → Status}
    {n : Node} (h : settleNode g env n = .upstreamFailed) :
    ∃ u ∈ n.upstream, isTermBad (env u) = true := by
  unfold settleNode at h
  split at h
  · cases h
  · obtain ⟨s, hs, hbad⟩ := readyStatus_upstreamFailed h
    obtain ⟨u, hu, rfl⟩ := List.mem_map.mp hs
    exact ⟨u, hu, hbad⟩

/-- The Run Record invariants carried through a run: only graph identities
leave `pending`, and an `upstream_failed` entry always traces back to some
`failed` entry. -/
theorem runFrom_inv (g : List Node) :
    ∀ (rest : List Node) (env : String → Status),
      (rest.map Node.id).Nodup →
      (∀ m ∈ rest, env m.id = .pending) →
      (∀ m ∈ rest, m.id ∈ g.map Node.id) →
      (∀ id, env id ≠ .pending → id ∈ g.map Node.id) →
      (∀ id, env id = .upstreamFailed → ∃ id2, env id2 = .failed) →
      (∀ id, runFrom g env rest id ≠ .pending → id ∈ g.map Node.id) ∧
      (∀ id, runFrom g env rest id = .upstreamFailed →
        ∃ id2, runFrom g env rest id2 = .failed) := by
  intro rest
  induction rest with
  | nil => intro env _ _ _ hdom hinv; exact ⟨hdom, hinv⟩
  | cons n rest ih =>
      intro env hnd hpend hsub hdom hinv
      simp only [List.map_cons, List.nodup_cons] at hnd
      have hpn : env n.id = .pending := hpend n (List.mem_cons_self n rest)
      rw [runFrom]
      have hne : ∀ id2, env id2 = .failed →
          updEnv env n.id (settleNode g env n) id2 = .failed := by
        intro id2 h2
        have hne2 : id2 ≠ n.id := fun he => by rw [he, hpn] at h2; cases h2
        simp only [updEnv, if_neg hne2]
        exact h2
      refine ih (updEnv env n.id (settleNode g env n)) hnd.2 ?_ ?_ ?_ ?_
      · intro m hm
        have : m.id ≠ n.id := fun he => hnd.1 (he ▸ List.mem_map_of_mem Node.id hm)
        simp only [updEnv, if_neg this]
        exact hpend m (List.mem_cons_of_mem n hm)
      · intro m hm
        exact hsub m (List.mem_cons_of_mem n hm)
      · intro id hid
        by_cases he : id = n.id
        · exact he ▸ hsub n (List.mem_cons_self n rest)
        · simp only [updEnv, if_neg he] at hid
          exact hdom id hid
      · intro id hid
        by_cases he : id = n.id
        · rw [he] at hid
          simp only [updEnv, if_pos rfl] at hid
          obtain ⟨u, _, hbad⟩ := settleNode_upstreamFailed hid
          rcases isTermBad_iff.mp hbad with hf | huf
          · exact ⟨u, hne u hf⟩
          · obtain ⟨id2, h2⟩ := hinv u huf
            exact ⟨id2, hne id2 h2⟩
        · simp only [updEnv, if_neg he] at hid
          obtain ⟨id2, h2⟩ := hinv id hid
          exact ⟨id2, hne id2 h2⟩

/-- Final-Record invariants for a whole run. -/
theorem runGraph_inv {g : List Node} (hnd : (g.map Node.id).Nodup) :
    (∀ id, runGraph g id ≠ .pending → id ∈ g.map Node.id) ∧
    (∀ id, runGraph g id = .upstreamFailed →
      ∃ id2, runGraph g id2 = .failed) := by
  unfold runGraph
  exact runFrom_inv g g initEnv hnd (fun _ _ => rfl) (fun m hm => List.mem_map_of_mem Node.id hm)
    (fun id h => absurd rfl h) (fun id h => by cases h)

theorem find?_split {α : Type} (p : α → Bool) :
    ∀ l : List α, (∃ x ∈ l, p x = true) →
      ∃ a l₁ l₂, l.find? p = some a ∧ l = l₁ ++ a :: l₂ ∧
        (∀ x ∈ l₁, p x = false) ∧ p a = true := by
  intro l
  induction l with
  | nil => rintro ⟨x, hx, _⟩; cases hx
  | cons h t ih =>
      rintro ⟨x, hx, hpx⟩
      by_cases hph : p h = true
      · exact ⟨h, [], t, by rw [List.find?_cons_of_pos _ hph], rfl, by simp, hph⟩
      · have hphf : p h = false := by simpa using hph
        have hxt : x ∈ t := by
          rcases List.mem_cons.mp hx with rfl | h2
          · rw [hpx] at hphf; cases hphf
          · exact h2
        obtain ⟨a, l₁, l₂, hfind, hsplit, hnone, hpa⟩ := ih ⟨x, hxt, hpx⟩
        refine ⟨a, h :: l₁, l₂, ?_, by rw [hsplit, List.cons_append], ?_, hpa⟩
        · rw [List.find?_cons_of_neg _ (by simp [hphf]), hfind]
        · intro y hy
          rcases List.mem_cons.mp hy with rfl | hy2
          · exact hphf
          · exact hnone y hy2

/-- Claim C4: exactly one terminal callback per run — the success callback
fires iff every node not intentionally skipped reached `success`; otherwise
the failure callback fires, citing the first node (in scheduling order) whose
terminal state was `failed`, together with its failure reason. -/
theorem claim_C4_terminal_callbacks :
    ∀ g : List Node, WF g →
      (terminalCallback g = .onSuccessCb ↔ runSuccessB g = true)
    ∧ (runSuccessB g = false →
        ∃ n l₁ l₂, g = l₁ ++ n :: l₂ ∧ runGraph g n.id = .failed ∧
          (∀ m ∈ l₁, runGraph g m.id ≠ .failed) ∧
          terminalCallback g = .onFailureCb n.id (failReason n)) := by
  intro g hwf
  obtain ⟨hnd, _⟩ := hwf
  have hfail : runSuccessB g = false → ∃ n ∈ g, runGraph g n.id = .failed := by
    intro hrs
    have hnall : ¬ (∀ n ∈ g, (runGraph g n.id == Status.success ||
        runGraph g n.id == Status.skipped) = true) := by
      rw [← List.all_eq_true]
      simp only [runSuccessB] at hrs
      simp [hrs]
    push_neg at hnall
    obtain ⟨n, hn, hpn'⟩ := hnall
    have hpn : (runGraph g n.id == Status.success ||
        runGraph g n.id == Status.skipped) = false := by simpa using hpn'
    rw [Bool.or_eq_false_iff] at hpn
    have h1 : runGraph g n.id ≠ .success := by
      intro h; rw [h] at hpn; simp at hpn
    have h2 : runGraph g n.id ≠ .skipped := by
      intro h; rw [h] at hpn; simp at hpn
    have h0 : runGraph g n.id ≠ .pending := runGraph_ne_pending hnd hn
    cases hstat : runGraph g n.id with
    | pending => exact absurd hstat h0
    | success => exact absurd hstat h1
    | skipped => exact absurd hstat h2
    | failed => exact ⟨n, hn, hstat⟩
    | upstreamFailed =>
        obtain ⟨id2, h2f⟩ := (runGraph_inv hnd).2 n.id hstat
        have hid2 : id2 ∈ g.map Node.id :=
          (runGraph_inv hnd).1 id2 (by rw [h2f]; simp)
        obtain ⟨m, hm, rfl⟩ := List.mem_map.mp hid2
        exact ⟨m, hm, h2f⟩
  have hmain : runSuccessB g = false →
      ∃ n l₁ l₂, g = l₁ ++ n :: l₂ ∧ runGraph g n.id = .failed ∧
        (∀ m ∈ l₁, runGraph g m.id ≠ .failed) ∧
        terminalCallback g = .onFailureCb n.id (failReason n) := by
    intro hrs
    obtain ⟨n0, hn0, hst0⟩ := hfail hrs
    obtain ⟨a, l₁, l₂, hfind, hsplit, hnone, hpa⟩ :=
      find?_split (fun n => runGraph g n.id == Status.failed) g
        ⟨n0, hn0, by simp [hst0]⟩
    refine ⟨a, l₁, l₂, hsplit, by simpa using hpa, ?_, ?_⟩
    · intro m hm
      have := hnone m hm
      simpa using this
    · unfold terminalCallback firstFailed
      rw [hrs, hfind]
      rfl
  refine ⟨⟨?_, ?_⟩, hmain⟩
  · intro hcb
    cases hrs : runSuccessB g with
    | true => rfl
    | false =>
        obtain ⟨n, l₁, l₂, _, _, _, hfb⟩ := hmain hrs
        rw [hcb] at hfb
        cases hfb
  · intro hrs
    unfold terminalCallback
    rw [hrs]
    rfl

/-- Witness: on the failing two-node graph, the failure callback cites the
first failed node `a` with its reason. -/
theorem claim_C4_witness :
    ∃ n l₁ l₂, failGraph = l₁ ++ n :: l₂ ∧ runGraph failGraph n.id = .failed ∧
      (∀ m ∈ l₁, runGraph failGraph m.id ≠ .failed) ∧
      terminalCallback failGraph = .onFailureCb n.id (failReason n) :=
  (claim_C4_terminal_callbacks failGraph ⟨by decide, by decide⟩).2 (by decide)

/-! ### Branch pruning -/

theorem topoOK_split_upstream :
    ∀ (l₁ : List Node) (placed : List String) (n : Node) (l₂ : List Node),
      TopoOK placed (l₁ ++ n :: l₂) →
      ∀ u ∈ n.upstream, u ∈ placed ∨ u ∈ l₁.map Node.id := by
  intro l₁
  induction l₁ with
  | nil =>
      intro placed n l₂ hok u hu
      have hok' : (∀ u ∈ n.upstream, u ∈ placed) ∧ TopoOK (n.id :: placed) l₂ := hok
      exact Or.inl (hok'.1 u hu)
  | cons m t ih =>
      intro placed n l₂ hok u hu
      have hok' : (∀ u ∈ m.upstream, u ∈ placed) ∧
          TopoOK (m.id :: placed) (t ++ n :: l₂) := hok
      rcases ih (m.id :: placed) n l₂ hok'.2 u hu with hm | ht
      · rcases List.mem_cons.mp hm with rfl | hp
        · exact Or.inr (by simp)
        · exact Or.inl hp
      · exact Or.inr (by simp [ht])

theorem find?_id_of_nodup :
    ∀ (g : List Node), (g.map Node.id).Nodup → ∀ b ∈ g,
      g.find? (fun m => m.id == b.id) = some b := by
  intro g
  induction g with
  | nil => intro _ b hb; cases hb
  | cons h t ih =>
      intro hnd b hb
      simp only [List.map_cons, List.nodup_cons] at hnd
      by_cases hph : (h.id == b.id) = true
      · have heq : h.id = b.id := by simpa using hph
        rcases List.mem_cons.mp hb with rfl | hbt
        · exact List.find?_cons_of_pos t hph
        · exact absurd (heq ▸ List.mem_map_of_mem Node.id hbt) hnd.1
      · have hne : h.id ≠ b.id := by simpa using hph
        have hbt : b ∈ t := by
          rcases List.mem_cons.mp hb with rfl | hbt
          · exact absurd rfl hne
          · exact hbt
        rw [show List.find? (fun m => m.id == b.id) (h :: t) =
            List.find? (fun m => m.id == b.id) t from
          List.find?_cons_of_neg t hph]
        exact ih hnd.2 b hbt

/-- In any validated graph, a settled Branch Evaluator forces every direct
downstream node outside its selection to `skipped`. -/
theorem branch_skips_unselected {g : List Node} {b n : Node} {sel : List String}
    (hwf : WF g) (hb : b ∈ g) (hbout : b.out = .branch sel)
    (hbsucc : runGraph g b.id = .success) (hn : n ∈ g)
    (hup : b.id ∈ n.upstream) (hnsel : n.id ∉ sel) :
    runGraph g n.id = .skipped := by
  obtain ⟨hnd, hokb⟩ := hwf
  have hok : TopoOK [] g := topoOK_of_b g [] hokb
  obtain ⟨l₁, l₂, hg⟩ := List.append_of_mem hn
  have hbid : b.id ∈ l₁.map Node.id := by
    rcases topoOK_split_upstream l₁ [] n l₂ (hg ▸ hok) b.id hup with h0 | h1
    · cases h0
    · exact h1
  have henv : runFrom g initEnv l₁ b.id = .success := by
    rw [← runGraph_agree hg hnd hbid]
    exact hbsucc
  have hfind : g.find? (fun m => m.id == b.id) = some b :=
    find?_id_of_nodup g hnd b hb
  have hskip : isBranchSkipped g (runFrom g initEnv l₁) n = true := by
    unfold isBranchSkipped
    rw [List.any_eq_true]
    refine ⟨b.id, hup, ?_⟩
    rw [hfind]
    dsimp only
    rw [hbout]
    dsimp only
    rw [henv]
    simp [hnsel]
  rw [runGraph_eq_settle hg hnd]
  unfold settleNode
  rw [if_pos hskip]

/-- Claim C1: a Branch Evaluator selecting successor set `{X}` out of declared
downstream `{X, Y}` settles every unselected direct downstream node to
`skipped` (in any validated graph), and on the dbt DAG — whose quality gate
selects `mart_models.start_mart` out of `{mart_models.start_mart,
quality_check_failed}` — `quality_check_failed` and every node reachable
exclusively through it settle to `skipped`, the `none_failed` sink still
succeeds, and the run's success callback fires when the selected subtree's
Actions all succeed. -/
theorem claim_C1_branch_pruning (f : String → Outcome)
    (hf : ∀ s, f s = Outcome.ok) :
    (∀ (g : List Node) (b n : Node) (sel : List String),
        WF g → b ∈ g → b.out = .branch sel → runGraph g b.id = .success →
        n ∈ g → b.id ∈ n.upstream → n.id ∉ sel →
        runGraph g n.id = .skipped)
  ∧ runGraph (dbtGraphOf f) "quality_check_failed" = .skipped
  ∧ (∀ n ∈ dbtGraphOf f,
      exclusivelyViaB (dbtGraphOf f) "data_quality_gate" "quality_check_failed"
        n.id = true →
      runGraph (dbtGraphOf f) n.id = .skipped)
  ∧ runGraph (dbtGraphOf f) "end" = .success
  ∧ terminalCallback (dbtGraphOf f) = .onSuccessCb := by
  have hfe : f = fun _ => Outcome.ok := funext hf
  subst hfe
  refine ⟨?_, by decide, ?_, by decide, by decide⟩
  · intro g b n sel hwf hb hbout hbsucc hn hup hnsel
    exact branch_skips_unselected hwf hb hbout hbsucc hn hup hnsel
  · decide

/-- Witness: on the happy-path dbt graph the pruning facts hold concretely. -/
theorem claim_C1_witness :
    runGraph dbtGraph "quality_check_failed" = .skipped ∧
    runGraph dbtGraph "end" = .success ∧
    terminalCallback dbtGraph = .onSuccessCb := by
  obtain ⟨_, h2, _, h4, h5⟩ := claim_C1_branch_pruning (fun _ => .ok) (fun _ => rfl)
  exact ⟨h2, h4, h5⟩

/-! ### Trigger-rule semantics (claim C2) -/

/-- Counterexample to claim C2: with upstream statuses `{A: failed,
B: success}` a `none_failed_min_one_success` node does NOT become ready — it
settles to `upstream_failed` and never executes its Action. -/
theorem claim_C2_counterexample :
    readyStatus ⟨"C", ["A", "B"], .noneFailedMinOneSuccess, .ok⟩
      [.failed, .success] = .upstreamFailed
  ∧ runGraph c2GraphFS "C" = .upstreamFailed
  ∧ runGraph c2GraphFS "C" ≠ .success := by
  refine ⟨by decide, by decide, by decide⟩

/-- Claim C2 (amended): a `none_failed_min_one_success` node becomes
`upstream_failed` without executing whenever any upstream failed — both for
`{A: failed, B: success}` and `{A: failed, B: failed}`; it becomes ready
exactly when no upstream failed and at least one succeeded (e.g.
`{A: skipped, B: success}`). -/
theorem claim_C2_trigger_rule :
    runGraph c2GraphFS "C" = .upstreamFailed
  ∧ runGraph c2GraphFF "C" = .upstreamFailed
  ∧ runGraph c2GraphSkip "C" = .success
  ∧ (∀ (n : Node) (us : List Status), n.rule = .noneFailedMinOneSuccess →
      us.any isTermBad = true → readyStatus n us = .upstreamFailed) := by
  refine ⟨by decide, by decide, by decide, ?_⟩
  intro n us hr hany
  have hne : us.isEmpty = false := by
    cases us with
    | nil => cases hany
    | cons a t => rfl
  unfold readyStatus
  rw [if_neg (by simp [hne])]
  rw [hr]
  dsimp only
  rw [if_pos hany]

/-- Witness: the trigger-rule characterisation applied at the concrete
upstream statuses `{failed, success}`. -/
theorem claim_C2_witness :
    readyStatus ⟨"C", ["A", "B"], .noneFailedMinOneSuccess, .ok⟩
      [.failed, .success] = .upstreamFailed :=
  claim_C2_trigger_rule.2.2.2 ⟨"C", ["A", "B"], .noneFailedMinOneSuccess, .ok⟩
    [.failed, .success] rfl (by decide)

/-! ### Retry/backoff (claim C3) -/

/-- Claim C3: a node whose Action always fails under `max_attempts = 3`
(the `retries = 2` of both DEFAULT_ARGS dictionaries plus the initial
attempt) is invoked exactly 3 times and then settles to `failed` permanently;
the delay before re-invocation after attempt `n` is
`min (base_delay * multiplier ^ n) max_delay`, a sequence that is
non-decreasing (for any multiplier ≥ 1) and never exceeds `max_delay`. -/
theorem claim_C3_retry (act : Nat → Bool) (hact : ∀ i, act i = false)
    (mult : Nat) (hm : 1 ≤ mult) :
    (retryRun act 3).1 = 3
  ∧ (retryRun act 3).2 = false
  ∧ (∀ baseDelay maxDelay n, backoffDelay baseDelay mult maxDelay n =
      min (baseDelay * mult ^ n) maxDelay)
  ∧ (∀ baseDelay maxDelay n, backoffDelay baseDelay mult maxDelay n ≤
      backoffDelay baseDelay mult maxDelay (n + 1))
  ∧ (∀ baseDelay maxDelay n, backoffDelay baseDelay mult maxDelay n ≤ maxDelay)
  ∧ maxAttemptsOf dbtDefaultArgs = 3 ∧ maxAttemptsOf uberDefaultArgs = 3 := by
  refine ⟨?_, ?_, fun _ _ _ => rfl, ?_, fun _ maxDelay _ => min_le_right _ _,
    by decide, by decide⟩
  · simp [retryRun, retryGo, hact]
  · simp [retryRun, retryGo, hact]
  · intro baseDelay maxDelay n
    unfold backoffDelay
    exact min_le_min
      (Nat.mul_le_mul_left baseDelay (Nat.pow_le_pow_right hm (Nat.le_succ n)))
      (le_refl maxDelay)

/-- Witness: the always-failing Action at multiplier 2. -/
theorem claim_C3_witness :
    (retryRun (fun _ => false) 3).1 = 3 ∧
    (retryRun (fun _ => false) 3).2 = false :=
  ⟨(claim_C3_retry (fun _ => false) (fun _ => rfl) 2 (by decide)).1,
   (claim_C3_retry (fun _ => false) (fun _ => rfl) 2 (by decide)).2.1⟩

/-! ### Single active run (claim C5) -/

/-- Claim C5: at most one run per graph is ever active, and a `start_run`
request for a graph with an active run is rejected with the distinct
`alreadyActive` error, leaving the engine state unchanged (not queued); both
DAG files pin `max_active_runs = 1`. -/
theorem claim_C5_single_active_run :
    (∀ (ops : List EngineOp) (gid : String), activeFor (applyOps ops) gid ≤ 1)
  ∧ (∀ (e : Engine) (gid : String), 0 < activeFor e gid →
      start_run e gid = (.error .alreadyActive, e))
  ∧ dbtDagConfig.max_active_runs = 1
  ∧ uberDagConfig.max_active_runs = 1 := by
  have hreject : ∀ (e : Engine) (gid : String), 0 < activeFor e gid →
      start_run e gid = (.error .alreadyActive, e) := by
    intro e gid hpos
    have hany : e.runs.any (fun p => p.1 == gid) = true := by
      rw [List.any_eq_true]
      obtain ⟨p, hp, hpg⟩ := List.countP_pos_iff.mp hpos
      exact ⟨p, hp, hpg⟩
    unfold start_run
    rw [if_pos hany]
  have hstep : ∀ (e : Engine) (op : EngineOp),
      (∀ g, activeFor e g ≤ 1) → ∀ g, activeFor (applyOp e op) g ≤ 1 := by
    intro e op hinv g
    cases op with
    | startOp g' =>
        show activeFor (start_run e g').2 g ≤ 1
        unfold start_run
        by_cases hany : e.runs.any (fun p => p.1 == g') = true
        · rw [if_pos hany]
          exact hinv g
        · rw [if_neg hany]
          unfold activeFor
          rw [List.countP_cons]
          by_cases hg : g' = g
          · subst hg
            have hzero : e.runs.countP (fun p => p.1 == g') = 0 := by
              rw [List.countP_eq_zero]
              intro p hp hpg
              exact hany (List.any_eq_true.mpr ⟨p, hp, hpg⟩)
            simp [hzero, activeFor]
          · have : ((g', e.nextRunId).1 == g) = false := by
              simp [hg]
            rw [this]
            simpa [activeFor] using hinv g
    | finishOp g' =>
        show activeFor (finish_run e g') g ≤ 1
        unfold finish_run activeFor
        calc (e.runs.filter fun p => !(p.1 == g')).countP (fun p => p.1 == g)
            ≤ e.runs.countP (fun p => p.1 == g) :=
              List.Sublist.countP_le _ (List.filter_sublist e.runs)
          _ ≤ 1 := hinv g
  have hfold : ∀ (ops : List EngineOp) (e : Engine),
      (∀ g, activeFor e g ≤ 1) → ∀ g, activeFor (ops.foldl applyOp e) g ≤ 1 := by
    intro ops
    induction ops with
    | nil => intro e h; exact h
    | cons op rest ih =>
        intro e h
        exact ih (applyOp e op) (hstep e op h)
  refine ⟨?_, hreject, rfl, rfl⟩
  intro ops gid
  exact hfold ops Engine.empty (fun g => by simp [activeFor, Engine.empty]) gid

/-- Witness: a second `start_run` for graph "g" while one run is active is
rejected and the state is unchanged. -/
theorem claim_C5_witness :
    start_run ⟨[("g", 0)], 1⟩ "g" = (.error .alreadyActive, ⟨[("g", 0)], 1⟩) :=
  claim_C5_single_active_run.2.1 ⟨[("g", 0)], 1⟩ "g" (by decide)

/-! ### Quality-gate callables (claims C8, C9) -/

/-- Counterexample to claim C8: the uber DAG's quality gate — the only
candidate for the "random" path — returns the same successor on every
invocation (here: on two different run contexts), so its result does not
depend on random numbers; the dbt gate is likewise constant. -/
theorem claim_C8_counterexample :
    check_quality_gate 0 = check_quality_gate 1
  ∧ check_quality_gate 0 = "dimensions.start_dimensions"
  ∧ check_data_quality 0 = check_data_quality 1
  ∧ check_data_quality 0 = "mart_models.start_mart" :=
  ⟨rfl, rfl, rfl, rfl⟩

/-- Claim C8 (amended): both quality-gate callables in the source are
hardcoded to always pass — each returns one fixed continuation successor for
every input, and neither consults random numbers (their results are
identical across any two runs). -/
theorem claim_C8_both_hardcoded :
    (∀ c, check_data_quality c = "mart_models.start_mart")
  ∧ (∀ c, check_quality_gate c = "dimensions.start_dimensions")
  ∧ (∀ c c', check_data_quality c = check_data_quality c'
      ∧ check_quality_gate c = check_quality_gate c') :=
  ⟨fun _ => rfl, fun _ => rfl, fun _ _ => ⟨rfl, rfl⟩⟩

/-- Claim C9: every node identity either branch callable can return is a
member of that branch node's direct downstream set after group flattening. -/
theorem claim_C9_branch_targets_downstream :
    (∀ c, check_data_quality c ∈ downstreamOf dbtGraph "data_quality_gate")
  ∧ (∀ c, check_quality_gate c ∈ downstreamOf uberGraph "quality_gate_1")
  ∧ downstreamOf dbtGraph "data_quality_gate" =
      ["quality_check_failed", "mart_models.start_mart"]
  ∧ downstreamOf uberGraph "quality_gate_1" =
      ["quality_failed", "dimensions.start_dimensions"] := by
  refine ⟨?_, ?_, by decide, by decide⟩
  · intro c
    show "mart_models.start_mart" ∈ downstreamOf dbtGraph "data_quality_gate"
    decide
  · intro c
    show "dimensions.start_dimensions" ∈ downstreamOf uberGraph "quality_gate_1"
    decide

/-! ### Source-freshness command (claim C10) -/

/-- Claim C10: the `check_source_freshness` command appends `|| true`, so its
exit status is 0 — and the node's Action outcome is Success — for every
outcome of the underlying `dbt source freshness` invocation; consequently a
freshness failure can never fail the node or the run. -/
theorem claim_C10_freshness_never_fails :
    source_freshness_command = renderSh source_freshness_sh
  ∧ (∃ pre, source_freshness_command = pre ++ "|| true")
  ∧ (∀ env, evalSh env source_freshness_sh = 0)
  ∧ (∀ env, outcomeOfExit (evalSh env source_freshness_sh) = .ok)
  ∧ (∀ env,
      runGraph (dbtGraphOf fun s =>
        if s = "source_models.check_source_freshness"
        then outcomeOfExit (evalSh env source_freshness_sh) else .ok)
        "source_models.check_source_freshness" = .success
    ∧ terminalCallback (dbtGraphOf fun s =>
        if s = "source_models.check_source_freshness"
        then outcomeOfExit (evalSh env source_freshness_sh) else .ok) =
        .onSuccessCb) := by
  have hzero : ∀ env, evalSh env source_freshness_sh = 0 := by
    intro env
    simp [evalSh, source_freshness_sh]
  have hout : ∀ env, outcomeOfExit (evalSh env source_freshness_sh) = .ok := by
    intro env
    rw [hzero env]
    rfl
  have hgf : ∀ env, (fun s =>
      if s = "source_models.check_source_freshness"
      then outcomeOfExit (evalSh env source_freshness_sh) else Outcome.ok) =
      fun _ => Outcome.ok := by
    intro env
    funext s
    by_cases h : s = "source_models.check_source_freshness"
    · rw [if_pos h, hout env]
    · rw [if_neg h]
  refine ⟨rfl, ⟨DBT_CMD_PRE ++ " && dbt source freshness ", rfl⟩, hzero, hout, ?_⟩
  intro env
  rw [hgf env]
  exact ⟨by decide, by decide⟩

end AirflowDbt
